import Mathlib

/-!
Shallow embedding of `calc/interpreter.py`: a minimal arithmetic expression
interpreter (lexer + single-operator parser/evaluator).

Python strings are modelled as `List Char`, `int` as `Int` (digit runs are
always non-negative, so the lexer produces casts of `Nat` values), and
Python exceptions as the `Except PyError` monad.  The Python character
predicates `str.isspace` / `str.isdigit` are modelled by the ASCII
`Char.isWhitespace` / `Char.isDigit`.
-/

deriving instance DecidableEq for Except

namespace Calc

/-- Token kinds are plain strings in the source (`interpreter.py` line 2). -/
def INTEGER : String := "INTEGER"

/-- The `PLUS` token kind string. -/
def PLUS : String := "PLUS"

/-- The `MINUS` token kind string. -/
def MINUS : String := "MINUS"

/-- The `EOF` token kind string. -/
def EOF : String := "EOF"

/-- A Python token value: a non-negative integer for `INTEGER` tokens, the
operator character string for `PLUS`/`MINUS`, or Python `None` for `EOF`. -/
inductive TokValue where
  | vInt (n : Int)
  | vStr (s : String)
  | vNone
deriving DecidableEq

/-- A calculator token (`Token` class): a kind and a value.  Equality is
structural, as in `Token.__eq__`. -/
structure Token where
  kind : String
  value : TokValue
deriving DecidableEq

/-- The Python exceptions the interpreter can raise.  `parserError` is the
source's `ParserError` with its message; the others model built-in Python
exceptions reachable only from states the parser never produces
(`AttributeError` from `None.kind`, `ValueError` from `int('')`,
`TypeError` from adding non-integers). -/
inductive PyError where
  | parserError (msg : String)
  | attributeError
  | valueError
  | typeError
deriving DecidableEq

/-- The `Interpreter` object state: input text, cursor position, current
lookahead token, and current lookahead character. -/
structure Interpreter where
  text : List Char
  pos : Nat
  current_token : Option Token
  current_char : Option Char
deriving DecidableEq

/-- `Interpreter.__init__`: position 0, no token yet, lookahead character
`text[0]` when the text is non-empty and `None` otherwise. -/
def Interpreter.init (text : List Char) : Interpreter :=
  { text := text
    pos := 0
    current_token := none
    current_char := match text with | [] => none | c :: _ => some c }

/-- `Interpreter._advance`: increment `pos`; set `current_char` to `None`
when `pos > len(text) - 1` and to `text[pos]` otherwise.  (In the source the
in-bounds branch indexes the text directly; `getElem?` agrees with it there
because the guard ensures the index is in bounds.) -/
def Interpreter.advance (s : Interpreter) : Interpreter :=
  let p := s.pos + 1
  { s with
    pos := p
    current_char := if s.text.length - 1 < p then none else s.text[p]? }

/-- The loop body of `Interpreter._skip_whitespace`, with explicit fuel
(the Python `while` loop; the wrapper below supplies enough fuel for every
state satisfying the lookahead invariant). -/
def skipWsAux : Nat → Interpreter → Interpreter
  | 0, s => s
  | fuel + 1, s =>
    match s.current_char with
    | some c => if c.isWhitespace then skipWsAux fuel s.advance else s
    | none => s

/-- `Interpreter._skip_whitespace`: advance while the lookahead character is
whitespace. -/
def Interpreter.skip_whitespace (s : Interpreter) : Interpreter :=
  skipWsAux (s.text.length + 1 - s.pos) s

/-- The loop body of `Interpreter._integer`, with explicit fuel: collect the
contiguous run of digit characters at the cursor, advancing past each. -/
def integerAux : Nat → Interpreter → List Char → List Char × Interpreter
  | 0, s, acc => (acc, s)
  | fuel + 1, s, acc =>
    match s.current_char with
    | some c =>
      if c.isDigit then integerAux fuel s.advance (acc ++ [c]) else (acc, s)
    | none => (acc, s)

/-- The value `int(''.join(ds))` computes on a list of decimal digit
characters: a decimal left fold. -/
def digitsVal (ds : List Char) : Nat :=
  ds.foldl (fun acc c => acc * 10 + (c.toNat - '0'.toNat)) 0

/-- `Interpreter._integer`: collect the digit run at the cursor and convert
it with `int(...)`.  On an empty run the source's `int('')` raises
`ValueError` (unreachable from `_get_next_token`, which only calls this
with a digit lookahead). -/
def Interpreter.integer (s : Interpreter) : Except PyError (Int × Interpreter) :=
  let r := integerAux (s.text.length + 1 - s.pos) s []
  if r.1.isEmpty then .error .valueError
  else .ok ((digitsVal r.1 : Int), r.2)

/-- `Interpreter._get_next_token`.  The source's `while` loop first skips any
whitespace (via `_skip_whitespace` and `continue`) and then dispatches on
the lookahead character, which at that point is either `None` or not
whitespace; the loop is therefore written here as skip-then-dispatch. -/
def Interpreter.get_next_token (s : Interpreter) :
    Except PyError (Token × Interpreter) :=
  let s := s.skip_whitespace
  match s.current_char with
  | none => .ok (⟨EOF, .vNone⟩, s)
  | some c =>
    if c.isDigit then
      match s.integer with
      | .ok (n, s') => .ok (⟨INTEGER, .vInt n⟩, s')
      | .error e => .error e
    else if c = '+' then .ok (⟨PLUS, .vStr "+"⟩, s.advance)
    else if c = '-' then .ok (⟨MINUS, .vStr "-"⟩, s.advance)
    else .error (.parserError ("Invalid token at position " ++ toString s.pos))

/-- `Interpreter._consume`: if the current token's kind matches the expected
kind, fetch the next token into `current_token`; otherwise raise a
`ParserError` naming the expected kind, the cursor position, and the kind
found.  Reading `.kind` from an absent current token is Python's
`AttributeError`. -/
def Interpreter.consume (s : Interpreter) (token_kind : String) :
    Except PyError Interpreter :=
  match s.current_token with
  | none => .error .attributeError
  | some tok =>
    if tok.kind = token_kind then
      match s.get_next_token with
      | .ok (t, s') => .ok { s' with current_token := some t }
      | .error e => .error e
    else
      .error (.parserError ("Expected " ++ token_kind ++ " at position " ++
        toString s.pos ++ ", found " ++ tok.kind))

/-- Reading `self.current_token` as a `Token` (attribute access on a value
that is `None` raises `AttributeError`). -/
def curTok (s : Interpreter) : Except PyError Token :=
  match s.current_token with
  | some t => .ok t
  | none => .error .attributeError

/-- `Interpreter.parse`: prime the lookahead, consume `INTEGER`, consume
`PLUS` (when the operator token's kind is `PLUS`) or `MINUS` (otherwise),
consume `INTEGER`, then evaluate `left value op right value`. -/
def Interpreter.parse (s0 : Interpreter) : Except PyError Int := do
  let (t0, s') ← s0.get_next_token
  let s : Interpreter := { s' with current_token := some t0 }
  let left ← curTok s
  let s ← s.consume INTEGER
  let op ← curTok s
  let s ← if op.kind = PLUS then s.consume PLUS else s.consume MINUS
  let right ← curTok s
  let _sEnd ← s.consume INTEGER
  match left.value, right.value with
  | .vInt a, .vInt b => if op.kind = PLUS then .ok (a + b) else .ok (a - b)
  | _, _ => .error .typeError

/-- Run `parse` on a fresh interpreter over the given input string, as the
surrounding shell does (`interpret` in `__main__.py`). -/
def parseStr (text : String) : Except PyError Int :=
  (Interpreter.init text.toList).parse

/-- The lookahead-character invariant: `current_char` is `text[pos]` when
`pos` is in bounds and `None` once `pos` is past the end. -/
def CharInv (s : Interpreter) : Prop := s.current_char = s.text[s.pos]?

instance (s : Interpreter) : Decidable (CharInv s) := by
  unfold CharInv; infer_instance

/-- A lexer step that may fail behaves well when it succeeds: the invariant
holds afterwards and the cursor has not moved backwards. -/
def stepOk {α : Type} (s : Interpreter) (r : Except PyError (α × Interpreter)) :
    Prop :=
  match r with
  | .ok (_, s') => CharInv s' ∧ s.pos ≤ s'.pos
  | .error _ => True

/-- Request `n` successive tokens from the lexer, threading the state. -/
def requestTokens : Nat → Interpreter → Except PyError (List Token × Interpreter)
  | 0, s => .ok ([], s)
  | n + 1, s =>
    match s.get_next_token with
    | .ok (t, s') =>
      match requestTokens n s' with
      | .ok (ts, s'') => .ok (t :: ts, s'')
      | .error e => .error e
    | .error e => .error e

/-- One further token can be lexed from `l` (or `l` is empty after
whitespace). -/
def lexableHead (l : List Char) : Prop :=
  ∀ c ∈ (l.dropWhile (fun a => a.isWhitespace)).head?,
    c.isDigit = true ∨ c = '+' ∨ c = '-'

instance (l : List Char) : Decidable (lexableHead l) := by
  unfold lexableHead; infer_instance

/-- Spec-side meaning of a digit run read as an ordinary decimal numeral:
`Nat.ofDigits` on the little-endian list of digit values. -/
def specDecimalValue (ds : List Char) : Nat :=
  Nat.ofDigits 10 ((ds.map (fun c => c.toNat - '0'.toNat)).reverse)


/-- A whitespace character is not a decimal digit. -/
lemma isDigit_eq_false_of_isWhitespace {c : Char} (h : c.isWhitespace = true) :
    c.isDigit = false := by
  simp only [Char.isWhitespace, Bool.or_eq_true, decide_eq_true_eq] at h
  rcases h with ((h | h) | h) | h <;> subst h <;> decide

/-- A decimal digit is not a whitespace character. -/
lemma isWhitespace_eq_false_of_isDigit {c : Char} (h : c.isDigit = true) :
    c.isWhitespace = false := by
  by_contra h'
  have hw : c.isWhitespace = true := by
    cases hcw : c.isWhitespace with
    | true => rfl
    | false => exact absurd hcw h'
  rw [isDigit_eq_false_of_isWhitespace hw] at h
  cases h

/-- Two interpreter states with equal fields are equal. -/
lemma interp_eq {s s' : Interpreter} (h1 : s.text = s'.text)
    (h2 : s.pos = s'.pos) (h3 : s.current_token = s'.current_token)
    (h4 : s.current_char = s'.current_char) : s = s' := by
  cases s; cases s'; simp_all

/-- The freshly initialized interpreter satisfies the lookahead invariant. -/
lemma init_charInv (t : List Char) : CharInv (Interpreter.init t) := by
  cases t <;> simp [CharInv, Interpreter.init]

/-- `advance` establishes the lookahead invariant unconditionally. -/
lemma advance_charInv (s : Interpreter) : CharInv s.advance := by
  unfold CharInv Interpreter.advance
  by_cases h : s.text.length - 1 < s.pos + 1
  · simp only [h, if_true]
    exact (List.getElem?_eq_none (by omega)).symm
  · simp [h]

lemma advance_text (s : Interpreter) : s.advance.text = s.text := rfl

lemma advance_pos (s : Interpreter) : s.advance.pos = s.pos + 1 := rfl

lemma advance_ct (s : Interpreter) :
    s.advance.current_token = s.current_token := rfl

/-- An element of a list at an index, read through `drop`. -/
lemma getElem?_eq_head?_drop (l : List Char) (n : Nat) :
    l[n]? = (l.drop n).head? := by
  simp [List.head?_eq_getElem?, List.getElem?_drop]

/-- Behaviour of the whitespace-skipping loop on a state whose remaining
input is a whitespace run `ws` followed by `rest`, given enough fuel: the
cursor moves to the end of the run and nothing else changes. -/
lemma skipWsAux_spec (ws rest : List Char) :
    ∀ (fuel : Nat) (s : Interpreter), CharInv s →
    s.text.drop s.pos = ws ++ rest → (∀ c ∈ ws, c.isWhitespace) →
    (∀ c ∈ rest.head?, c.isWhitespace = false) → ws.length < fuel →
    skipWsAux fuel s =
      ⟨s.text, s.pos + ws.length, s.current_token,
        s.text[s.pos + ws.length]?⟩ := by
  induction ws with
  | nil =>
    intro fuel s hinv hdrop _ hrest hfuel
    obtain ⟨f, rfl⟩ : ∃ f, fuel = f + 1 :=
      ⟨fuel - 1, by omega⟩
    have hcc : s.current_char = rest.head? := by
      rw [hinv, getElem?_eq_head?_drop, hdrop]; rfl
    simp only [List.length_nil, Nat.add_zero]
    have hs : (⟨s.text, s.pos, s.current_token, s.text[s.pos]?⟩ :
        Interpreter) = s := interp_eq rfl rfl rfl hinv.symm
    rw [hs]
    have hunf : skipWsAux (f + 1) s =
        match s.current_char with
        | some c => if c.isWhitespace then skipWsAux f s.advance else s
        | none => s := rfl
    rw [hunf, hcc]
    cases rest with
    | nil => rfl
    | cons c r =>
      have : c.isWhitespace = false := hrest c rfl
      simp [this]
  | cons w ws ih =>
    intro fuel s hinv hdrop hws hrest hfuel
    obtain ⟨f, rfl⟩ : ∃ f, fuel = f + 1 := ⟨fuel - 1, by omega⟩
    have hcc : s.current_char = some w := by
      rw [hinv, getElem?_eq_head?_drop, hdrop]; rfl
    have hwsp : w.isWhitespace = true := hws w (by simp)
    have hstep : skipWsAux (f + 1) s = skipWsAux f s.advance := by
      have hunf : skipWsAux (f + 1) s =
          match s.current_char with
          | some c => if c.isWhitespace then skipWsAux f s.advance else s
          | none => s := rfl
      rw [hunf, hcc]
      simp [hwsp]
    have hdrop' : s.advance.text.drop s.advance.pos = ws ++ rest := by
      rw [advance_text, advance_pos, ← List.tail_drop, hdrop]
      rfl
    have := ih f s.advance (advance_charInv s) hdrop'
      (fun c hc => hws c (by simp [hc])) hrest (by simpa using hfuel)
    rw [hstep, this, advance_text, advance_pos, advance_ct]
    have harith : s.pos + 1 + ws.length = s.pos + (w :: ws).length := by
      simp only [List.length_cons]; omega
    rw [harith]

/-- `_skip_whitespace` on a state whose remaining input is a whitespace run
`ws` followed by `rest`: the cursor moves to the end of the run. -/
lemma skip_whitespace_spec (s : Interpreter) (ws rest : List Char)
    (hinv : CharInv s) (hdrop : s.text.drop s.pos = ws ++ rest)
    (hws : ∀ c ∈ ws, c.isWhitespace)
    (hrest : ∀ c ∈ rest.head?, c.isWhitespace = false) :
    s.skip_whitespace =
      ⟨s.text, s.pos + ws.length, s.current_token,
        s.text[s.pos + ws.length]?⟩ := by
  have hlen : s.text.length - s.pos = ws.length + rest.length := by
    have := congrArg List.length hdrop
    simpa using this
  by_cases hp : s.pos ≤ s.text.length
  · exact skipWsAux_spec ws rest _ s hinv hdrop hws hrest (by omega)
  · have hnil : s.text.drop s.pos = [] := by
      rw [List.drop_eq_nil_iff]; omega
    rw [hnil] at hdrop
    have hwnil : ws = [] := by
      cases ws with
      | nil => rfl
      | cons a l => simp at hdrop
    subst hwnil
    have hfuel : s.text.length + 1 - s.pos = 0 := by omega
    unfold Interpreter.skip_whitespace
    rw [hfuel]
    simp only [List.length_nil, Nat.add_zero]
    exact interp_eq rfl rfl rfl hinv

/-- Behaviour of the digit-collecting loop on a state whose remaining input
is a digit run `ds` followed by `rest`, given enough fuel: the digits are
appended to the accumulator and the cursor moves past the run. -/
lemma integerAux_spec (ds rest : List Char) :
    ∀ (fuel : Nat) (s : Interpreter) (acc : List Char), CharInv s →
    s.text.drop s.pos = ds ++ rest → (∀ c ∈ ds, c.isDigit) →
    (∀ c ∈ rest.head?, c.isDigit = false) → ds.length < fuel →
    integerAux fuel s acc =
      (acc ++ ds,
        ⟨s.text, s.pos + ds.length, s.current_token,
          s.text[s.pos + ds.length]?⟩) := by
  induction ds with
  | nil =>
    intro fuel s acc hinv hdrop _ hrest hfuel
    obtain ⟨f, rfl⟩ : ∃ f, fuel = f + 1 := ⟨fuel - 1, by omega⟩
    have hcc : s.current_char = rest.head? := by
      rw [hinv, getElem?_eq_head?_drop, hdrop]; rfl
    simp only [List.length_nil, Nat.add_zero, List.append_nil]
    have hs : (⟨s.text, s.pos, s.current_token, s.text[s.pos]?⟩ :
        Interpreter) = s := interp_eq rfl rfl rfl hinv.symm
    rw [hs]
    have hunf : integerAux (f + 1) s acc =
        match s.current_char with
        | some c =>
          if c.isDigit then integerAux f s.advance (acc ++ [c]) else (acc, s)
        | none => (acc, s) := rfl
    rw [hunf, hcc]
    cases rest with
    | nil => rfl
    | cons c r =>
      have : c.isDigit = false := hrest c rfl
      simp [this]
  | cons d ds ih =>
    intro fuel s acc hinv hdrop hds hrest hfuel
    obtain ⟨f, rfl⟩ : ∃ f, fuel = f + 1 := ⟨fuel - 1, by omega⟩
    have hcc : s.current_char = some d := by
      rw [hinv, getElem?_eq_head?_drop, hdrop]; rfl
    have hd : d.isDigit = true := hds d (by simp)
    have hstep : integerAux (f + 1) s acc =
        integerAux f s.advance (acc ++ [d]) := by
      have hunf : integerAux (f + 1) s acc =
          match s.current_char with
          | some c =>
            if c.isDigit then integerAux f s.advance (acc ++ [c])
            else (acc, s)
          | none => (acc, s) := rfl
      rw [hunf, hcc]
      simp [hd]
    have hdrop' : s.advance.text.drop s.advance.pos = ds ++ rest := by
      rw [advance_text, advance_pos, ← List.tail_drop, hdrop]
      rfl
    have := ih f s.advance (acc ++ [d]) (advance_charInv s) hdrop'
      (fun c hc => hds c (by simp [hc])) hrest (by simpa using hfuel)
    rw [hstep, this, advance_text, advance_pos, advance_ct]
    have harith : s.pos + 1 + ds.length = s.pos + (d :: ds).length := by
      simp only [List.length_cons]; omega
    rw [harith]
    simp

/-- `_integer` on a state whose remaining input is a non-empty digit run
`ds` followed by `rest`: it returns the decimal value of the run and moves
the cursor past it. -/
lemma integer_spec (s : Interpreter) (ds rest : List Char)
    (hinv : CharInv s) (hdrop : s.text.drop s.pos = ds ++ rest)
    (hds : ∀ c ∈ ds, c.isDigit) (hne : ds ≠ [])
    (hrest : ∀ c ∈ rest.head?, c.isDigit = false) :
    s.integer = .ok ((digitsVal ds : Int),
      ⟨s.text, s.pos + ds.length, s.current_token,
        s.text[s.pos + ds.length]?⟩) := by
  have hlen : s.text.length - s.pos = ds.length + rest.length := by
    have := congrArg List.length hdrop
    simpa using this
  have hpos : s.pos < s.text.length := by
    have hd : 0 < ds.length := List.length_pos.mpr hne
    by_contra hc
    have : s.text.drop s.pos = [] := by
      rw [List.drop_eq_nil_iff]; omega
    rw [this] at hdrop
    cases ds with
    | nil => exact hne rfl
    | cons a l => simp at hdrop
  have hfuel : ds.length < s.text.length + 1 - s.pos := by omega
  unfold Interpreter.integer
  rw [integerAux_spec ds rest _ s [] hinv hdrop hds hrest hfuel]
  simp [hne]

/-- `_get_next_token` on a state whose remaining input is a whitespace run
`ws` followed by a non-empty digit run `ds` and then `rest`: it produces a
single `INTEGER` token holding the decimal value of the whole run and moves
the cursor past the run. -/
lemma gnt_integer (s : Interpreter) (ws ds rest : List Char)
    (hinv : CharInv s) (hdrop : s.text.drop s.pos = ws ++ ds ++ rest)
    (hws : ∀ c ∈ ws, c.isWhitespace)
    (hds : ∀ c ∈ ds, c.isDigit) (hne : ds ≠ [])
    (hrest : ∀ c ∈ rest.head?, c.isDigit = false) :
    s.get_next_token = .ok (⟨INTEGER, .vInt (digitsVal ds)⟩,
      ⟨s.text, s.pos + ws.length + ds.length, s.current_token,
        s.text[s.pos + ws.length + ds.length]?⟩) := by
  obtain ⟨d, ds', rfl⟩ : ∃ d ds', ds = d :: ds' := by
    cases ds with
    | nil => exact absurd rfl hne
    | cons d ds' => exact ⟨d, ds', rfl⟩
  have hd : d.isDigit = true := hds d (by simp)
  have hdrop0 : s.text.drop s.pos = ws ++ ((d :: ds') ++ rest) := by
    rw [hdrop, List.append_assoc]
  have hskip := skip_whitespace_spec s ws ((d :: ds') ++ rest) hinv hdrop0
    hws (by intro c hc; simp at hc; subst hc
            exact isWhitespace_eq_false_of_isDigit hd)
  unfold Interpreter.get_next_token
  rw [hskip]
  have hdrop1 : s.text.drop (s.pos + ws.length) = (d :: ds') ++ rest := by
    rw [← List.drop_drop, hdrop0, List.drop_left]
  have hcc1 : s.text[s.pos + ws.length]? = some d := by
    rw [getElem?_eq_head?_drop, hdrop1]; rfl
  simp only [hcc1]
  have hint := integer_spec
    (⟨s.text, s.pos + ws.length, s.current_token, some d⟩ : Interpreter)
    (d :: ds') rest hcc1.symm hdrop1 hds (by simp) hrest
  rw [hint]
  simp [hd]

/-- `_get_next_token` on a state whose remaining input is a whitespace run
`ws` followed by an operator character and then `rest`: it produces the
corresponding one-character operator token and advances one position. -/
lemma gnt_op (s : Interpreter) (ws rest : List Char) (opc : Char)
    (hinv : CharInv s) (hdrop : s.text.drop s.pos = ws ++ opc :: rest)
    (hws : ∀ c ∈ ws, c.isWhitespace) (hopc : opc = '+' ∨ opc = '-') :
    s.get_next_token = .ok
      ((if opc = '+' then ⟨PLUS, .vStr "+"⟩ else ⟨MINUS, .vStr "-"⟩ : Token),
        ⟨s.text, s.pos + ws.length + 1, s.current_token,
          s.text[s.pos + ws.length + 1]?⟩) := by
  have hnw : opc.isWhitespace = false := by
    rcases hopc with rfl | rfl <;> decide
  have hskip := skip_whitespace_spec s ws (opc :: rest) hinv hdrop hws
    (by intro c hc; simp at hc; subst hc; exact hnw)
  unfold Interpreter.get_next_token
  rw [hskip]
  have hdrop1 : s.text.drop (s.pos + ws.length) = opc :: rest := by
    rw [← List.drop_drop, hdrop, List.drop_left]
  have hcc1 : s.text[s.pos + ws.length]? = some opc := by
    rw [getElem?_eq_head?_drop, hdrop1]; rfl
  have hadv :
      (⟨s.text, s.pos + ws.length, s.current_token,
        some opc⟩ : Interpreter).advance =
      ⟨s.text, s.pos + ws.length + 1, s.current_token,
        s.text[s.pos + ws.length + 1]?⟩ := by
    refine interp_eq rfl rfl rfl ?_
    exact advance_charInv
      (⟨s.text, s.pos + ws.length, s.current_token, some opc⟩ : Interpreter)
  rcases hopc with rfl | rfl <;> simp only [hcc1] <;> simp [hadv]

/-- `_get_next_token` on a state whose remaining input is a whitespace run
`ws` followed by a character that is not a digit, not an operator, and not
whitespace: it raises `ParserError` naming that character's position. -/
lemma gnt_invalid (s : Interpreter) (ws rest : List Char) (c : Char)
    (hinv : CharInv s) (hdrop : s.text.drop s.pos = ws ++ c :: rest)
    (hws : ∀ c' ∈ ws, c'.isWhitespace)
    (hnd : c.isDigit = false) (hnp : c ≠ '+') (hnm : c ≠ '-')
    (hnw : c.isWhitespace = false) :
    s.get_next_token = .error (.parserError
      ("Invalid token at position " ++ toString (s.pos + ws.length))) := by
  have hskip := skip_whitespace_spec s ws (c :: rest) hinv hdrop hws
    (by intro c' hc'; simp at hc'; subst hc'; exact hnw)
  unfold Interpreter.get_next_token
  rw [hskip]
  have hdrop1 : s.text.drop (s.pos + ws.length) = c :: rest := by
    rw [← List.drop_drop, hdrop, List.drop_left]
  have hcc1 : s.text[s.pos + ws.length]? = some c := by
    rw [getElem?_eq_head?_drop, hdrop1]; rfl
  simp only [hcc1]
  simp [hnd, hnp, hnm]

/-- `_get_next_token` on a state whose remaining input is nothing but a
whitespace run `ws`: it skips to the end of input and produces `EOF`. -/
lemma gnt_ws_eof (s : Interpreter) (ws : List Char)
    (hinv : CharInv s) (hdrop : s.text.drop s.pos = ws)
    (hws : ∀ c ∈ ws, c.isWhitespace) :
    s.get_next_token = .ok (⟨EOF, .vNone⟩,
      ⟨s.text, s.pos + ws.length, s.current_token, none⟩) := by
  have hskip := skip_whitespace_spec s ws [] hinv (by simpa using hdrop) hws
    (by intro c hc; simp at hc)
  unfold Interpreter.get_next_token
  rw [hskip]
  have hcc1 : s.text[s.pos + ws.length]? = none := by
    rw [getElem?_eq_head?_drop, ← List.drop_drop, hdrop]
    simp
  simp only [hcc1]

/-- Once the cursor is at or past the end of input, `_get_next_token`
produces `EOF` and returns the state unchanged. -/
lemma gnt_eof (s : Interpreter) (hinv : CharInv s)
    (hpos : s.text.length ≤ s.pos) :
    s.get_next_token = .ok (⟨EOF, .vNone⟩, s) := by
  have hdrop : s.text.drop s.pos = [] := by
    rw [List.drop_eq_nil_iff]; omega
  rw [gnt_ws_eof s [] hinv hdrop (by intro c hc; simp at hc)]
  have hcc : s.current_char = none := by
    rw [hinv]
    exact List.getElem?_eq_none hpos
  have : (⟨s.text, s.pos + List.length ([] : List Char), s.current_token,
      none⟩ : Interpreter) = s := by
    refine interp_eq rfl (by simp) rfl hcc.symm
  rw [this]

/-- The whitespace-skipping loop preserves the lookahead invariant. -/
lemma skipWsAux_charInv (fuel : Nat) : ∀ (s : Interpreter), CharInv s →
    CharInv (skipWsAux fuel s) := by
  induction fuel with
  | zero => intro s h; exact h
  | succ f ih =>
    intro s h
    have h2 : skipWsAux (f + 1) s =
        match s.current_char with
        | some c => if c.isWhitespace then skipWsAux f s.advance else s
        | none => s := rfl
    rw [h2]
    cases hc : s.current_char with
    | none => exact h
    | some c =>
      by_cases hw : c.isWhitespace
      · simp only [hw, if_true]
        exact ih s.advance (advance_charInv s)
      · simpa [hw] using h

/-- The whitespace-skipping loop never moves the cursor backwards. -/
lemma skipWsAux_pos_le (fuel : Nat) : ∀ (s : Interpreter),
    s.pos ≤ (skipWsAux fuel s).pos := by
  induction fuel with
  | zero => intro s; exact Nat.le_refl _
  | succ f ih =>
    intro s
    have h2 : skipWsAux (f + 1) s =
        match s.current_char with
        | some c => if c.isWhitespace then skipWsAux f s.advance else s
        | none => s := rfl
    rw [h2]
    cases hc : s.current_char with
    | none => exact Nat.le_refl _
    | some c =>
      by_cases hw : c.isWhitespace
      · simp only [hw, if_true]
        have := ih s.advance
        rw [advance_pos] at this
        omega
      · simp [hw]

/-- The digit-collecting loop preserves the lookahead invariant. -/
lemma integerAux_charInv (fuel : Nat) :
    ∀ (s : Interpreter) (acc : List Char), CharInv s →
    CharInv (integerAux fuel s acc).2 := by
  induction fuel with
  | zero => intro s acc h; exact h
  | succ f ih =>
    intro s acc h
    have h2 : integerAux (f + 1) s acc =
        match s.current_char with
        | some c =>
          if c.isDigit then integerAux f s.advance (acc ++ [c]) else (acc, s)
        | none => (acc, s) := rfl
    rw [h2]
    cases hc : s.current_char with
    | none => exact h
    | some c =>
      by_cases hd : c.isDigit
      · simp only [hd, if_true]
        exact ih s.advance (acc ++ [c]) (advance_charInv s)
      · simpa [hd] using h

/-- The digit-collecting loop never moves the cursor backwards. -/
lemma integerAux_pos_le (fuel : Nat) : ∀ (s : Interpreter) (acc : List Char),
    s.pos ≤ (integerAux fuel s acc).2.pos := by
  induction fuel with
  | zero => intro s acc; exact Nat.le_refl _
  | succ f ih =>
    intro s acc
    have h2 : integerAux (f + 1) s acc =
        match s.current_char with
        | some c =>
          if c.isDigit then integerAux f s.advance (acc ++ [c]) else (acc, s)
        | none => (acc, s) := rfl
    rw [h2]
    cases hc : s.current_char with
    | none => exact Nat.le_refl _
    | some c =>
      by_cases hd : c.isDigit
      · simp only [hd, if_true]
        have := ih s.advance (acc ++ [c])
        rw [advance_pos] at this
        omega
      · simp [hd]

/-- `_integer` preserves the lookahead invariant and cursor monotonicity. -/
lemma integer_stepOk (s : Interpreter) (h : CharInv s) :
    stepOk s s.integer := by
  unfold Interpreter.integer
  by_cases he : (integerAux (s.text.length + 1 - s.pos) s []).1.isEmpty
  · simp [stepOk, he]
  · simp only [he, Bool.false_eq_true, if_false]
    show CharInv _ ∧ s.pos ≤ _
    exact ⟨integerAux_charInv _ s [] h, integerAux_pos_le _ s []⟩

/-- `_get_next_token` preserves the lookahead invariant and cursor
monotonicity. -/
lemma gnt_stepOk (s : Interpreter) (h : CharInv s) :
    stepOk s s.get_next_token := by
  have hsplit :=
    (List.takeWhile_append_dropWhile (p := fun c => c.isWhitespace)
      (l := s.text.drop s.pos)).symm
  have hws : ∀ c ∈ (s.text.drop s.pos).takeWhile (fun c => c.isWhitespace),
      c.isWhitespace := fun c hc => List.mem_takeWhile_imp hc
  cases hrest : (s.text.drop s.pos).dropWhile (fun c => c.isWhitespace) with
  | nil =>
    rw [hrest, List.append_nil] at hsplit
    rw [gnt_ws_eof s _ h hsplit hws]
    have hlen : ((s.text.drop s.pos).takeWhile
        (fun c => c.isWhitespace)).length = s.text.length - s.pos := by
      rw [← hsplit]
      simp
    show CharInv _ ∧ s.pos ≤ _
    constructor
    · show (none : Option Char) = _
      symm
      refine List.getElem?_eq_none ?_
      show s.text.length ≤ s.pos + ((s.text.drop s.pos).takeWhile
        (fun c => c.isWhitespace)).length
      omega
    · exact Nat.le_add_right _ _
  | cons c cs =>
    have hcw : c.isWhitespace = false := by
      have hh := List.head?_dropWhile_not
        (fun c => c.isWhitespace) (s.text.drop s.pos)
      rw [hrest] at hh
      exact hh
    rw [hrest] at hsplit
    by_cases hd : c.isDigit
    · obtain ⟨hsplit2, hds, hdrest⟩ :
          (c :: cs) = (c :: cs).takeWhile (fun a => a.isDigit) ++
              (c :: cs).dropWhile (fun a => a.isDigit) ∧
            (∀ a ∈ (c :: cs).takeWhile (fun a => a.isDigit), a.isDigit) ∧
            (∀ a ∈ ((c :: cs).dropWhile (fun a => a.isDigit)).head?,
              a.isDigit = false) := by
        refine ⟨(List.takeWhile_append_dropWhile _ _).symm,
          fun a ha => List.mem_takeWhile_imp ha, ?_⟩
        intro a ha
        have hh := List.head?_dropWhile_not
          (fun a => a.isDigit) (c :: cs)
        cases hh2 : ((c :: cs).dropWhile (fun a => a.isDigit)).head? with
        | none => rw [hh2] at ha; cases ha
        | some b =>
          rw [hh2] at hh ha
          cases ha
          exact hh
      have hne : (c :: cs).takeWhile (fun a => a.isDigit) ≠ [] := by
        simp [List.takeWhile_cons, hd]
      rw [hsplit2] at hsplit
      rw [← List.append_assoc] at hsplit
      rw [gnt_integer s _ _ _ h hsplit hws hds hne hdrest]
      show CharInv _ ∧ s.pos ≤ _
      exact ⟨rfl, Nat.le_trans (Nat.le_add_right _ _) (Nat.le_add_right _ _)⟩
    · by_cases hp : c = '+'
      · subst hp
        rw [gnt_op s _ _ _ h hsplit hws (Or.inl rfl)]
        show CharInv _ ∧ s.pos ≤ _
        exact ⟨rfl, Nat.le_trans (Nat.le_add_right _ _) (Nat.le_add_right _ _)⟩
      · by_cases hm : c = '-'
        · subst hm
          rw [gnt_op s _ _ _ h hsplit hws (Or.inr rfl)]
          show CharInv _ ∧ s.pos ≤ _
          exact ⟨rfl, Nat.le_trans (Nat.le_add_right _ _) (Nat.le_add_right _ _)⟩
        · rw [gnt_invalid s _ _ _ h hsplit hws
            (by cases hdd : c.isDigit with
              | true => exact absurd hdd hd
              | false => rfl) hp hm hcw]
          trivial


lemma init_text (t : List Char) : (Interpreter.init t).text = t := rfl
lemma init_pos (t : List Char) : (Interpreter.init t).pos = 0 := rfl
lemma init_ct (t : List Char) : (Interpreter.init t).current_token = none := rfl

lemma charInv_mk (t : List Char) (p : Nat) (ct : Option Token) :
    CharInv (⟨t, p, ct, t[p]?⟩ : Interpreter) := rfl

lemma parse_shape_plus (w1 ds1 w2 w3 ds2 rest : List Char)
    (hw1 : ∀ c ∈ w1, c.isWhitespace)
    (hds1 : ∀ c ∈ ds1, c.isDigit) (hne1 : ds1 ≠ [])
    (hw2 : ∀ c ∈ w2, c.isWhitespace)
    (hw3 : ∀ c ∈ w3, c.isWhitespace)
    (hds2 : ∀ c ∈ ds2, c.isDigit) (hne2 : ds2 ≠ [])
    (hrest1 : ∀ c ∈ rest.head?, c.isDigit = false)
    (hrest2 : lexableHead rest) :
    Interpreter.parse
      (Interpreter.init (w1 ++ ds1 ++ w2 ++ '+' :: w3 ++ ds2 ++ rest)) =
      .ok ((digitsVal ds1 : Int) + (digitsVal ds2 : Int)) := by
  set T : List Char := w1 ++ ds1 ++ w2 ++ '+' :: w3 ++ ds2 ++ rest with hT
  have hr1 : ∀ c ∈ (w2 ++ '+' :: (w3 ++ (ds2 ++ rest))).head?,
      c.isDigit = false := by
    cases w2 with
    | nil => intro c hc; simp at hc; subst hc; decide
    | cons a l =>
      intro c hc
      simp at hc
      subst hc
      exact isDigit_eq_false_of_isWhitespace (hw2 a (by simp))
  have hdrop0 : (Interpreter.init T).text.drop (Interpreter.init T).pos =
      w1 ++ ds1 ++ (w2 ++ ('+' :: (w3 ++ (ds2 ++ rest)))) := by
    simp [init_text, init_pos, hT]
  have h1 : Interpreter.get_next_token (Interpreter.init T) =
      .ok ((⟨INTEGER, .vInt (digitsVal ds1 : Int)⟩ : Token),
        ⟨T, w1.length + ds1.length, none,
          T[w1.length + ds1.length]?⟩) := by
    rw [gnt_integer (Interpreter.init T) w1 ds1 _ (init_charInv T) hdrop0
      hw1 hds1 hne1 hr1]
    all_goals simp [init_text, init_pos, init_ct]
  have hdrop2 : T.drop (w1.length + ds1.length) =
      w2 ++ ('+' :: (w3 ++ (ds2 ++ rest))) := by
    have h : T = (w1 ++ ds1) ++ (w2 ++ ('+' :: (w3 ++ (ds2 ++ rest)))) := by
      simp [hT]
    rw [h]
    exact List.drop_left' (by simp)
  have h2 : Interpreter.get_next_token
      ⟨T, w1.length + ds1.length,
        some ⟨INTEGER, .vInt (digitsVal ds1 : Int)⟩,
        T[w1.length + ds1.length]?⟩ =
      .ok ((⟨PLUS, .vStr "+"⟩ : Token),
        ⟨T, w1.length + ds1.length + w2.length + 1,
          some ⟨INTEGER, .vInt (digitsVal ds1 : Int)⟩,
          T[w1.length + ds1.length + w2.length + 1]?⟩) := by
    rw [gnt_op _ w2 (w3 ++ (ds2 ++ rest)) '+' (charInv_mk _ _ _) hdrop2 hw2
      (Or.inl rfl)]
    all_goals simp [hT]
  have hdrop3 : T.drop (w1.length + ds1.length + w2.length + 1) =
      w3 ++ ds2 ++ rest := by
    have h : T = (w1 ++ ds1 ++ w2 ++ ['+']) ++ (w3 ++ ds2 ++ rest) := by
      simp [hT]
    rw [h]
    exact List.drop_left' (by
      simp only [List.length_append, List.length_cons, List.length_nil]
      all_goals omega)
  have h3 : Interpreter.get_next_token
      ⟨T, w1.length + ds1.length + w2.length + 1,
        some ⟨PLUS, .vStr "+"⟩,
        T[w1.length + ds1.length + w2.length + 1]?⟩ =
      .ok ((⟨INTEGER, .vInt (digitsVal ds2 : Int)⟩ : Token),
        ⟨T, w1.length + ds1.length + w2.length + 1 + w3.length + ds2.length,
          some ⟨PLUS, .vStr "+"⟩,
          T[w1.length + ds1.length + w2.length + 1 + w3.length +
            ds2.length]?⟩) := by
    rw [gnt_integer _ w3 ds2 rest (charInv_mk _ _ _) hdrop3 hw3 hds2 hne2
      hrest1]
    all_goals simp [hT]
  have hdrop4 :
      T.drop (w1.length + ds1.length + w2.length + 1 + w3.length +
        ds2.length) = rest := by
    have h : T = (w1 ++ ds1 ++ w2 ++ ['+'] ++ w3 ++ ds2) ++ rest := by
      simp [hT]
    rw [h]
    exact List.drop_left' (by
      simp only [List.length_append, List.length_cons, List.length_nil]
      all_goals omega)
  obtain ⟨t4, s4, h4⟩ : ∃ t4 s4, Interpreter.get_next_token
      ⟨T, w1.length + ds1.length + w2.length + 1 + w3.length + ds2.length,
        some ⟨INTEGER, .vInt (digitsVal ds2 : Int)⟩,
        T[w1.length + ds1.length + w2.length + 1 + w3.length +
          ds2.length]?⟩ = .ok (t4, s4) := by
    have hsplit : rest = rest.takeWhile (fun a => a.isWhitespace) ++
        rest.dropWhile (fun a => a.isWhitespace) :=
      (List.takeWhile_append_dropWhile _ _).symm
    have htw : ∀ c ∈ rest.takeWhile (fun a => a.isWhitespace),
        c.isWhitespace := fun c hc => List.mem_takeWhile_imp hc
    cases hdw : rest.dropWhile (fun a => a.isWhitespace) with
    | nil =>
      refine ⟨_, _, gnt_ws_eof _ rest (charInv_mk _ _ _) hdrop4 ?_⟩
      intro c hc
      rw [hsplit, hdw, List.append_nil] at hc
      exact htw c hc
    | cons c cs =>
      have hcase : c.isDigit = true ∨ c = '+' ∨ c = '-' := by
        have := hrest2 c
        rw [hdw] at this
        exact this rfl
      have hdropR : T.drop (w1.length + ds1.length + w2.length + 1 +
          w3.length + ds2.length) =
          rest.takeWhile (fun a => a.isWhitespace) ++ (c :: cs) := by
        rw [hdrop4]
        conv_lhs => rw [hsplit, hdw]
      rcases hcase with hd | hp | hm
      · have hsplit2 : (c :: cs) = (c :: cs).takeWhile (fun a => a.isDigit)
            ++ (c :: cs).dropWhile (fun a => a.isDigit) :=
          (List.takeWhile_append_dropWhile _ _).symm
        have hne3 : (c :: cs).takeWhile (fun a => a.isDigit) ≠ [] := by
          simp [List.takeWhile_cons, hd]
        have hds3 : ∀ a ∈ (c :: cs).takeWhile (fun a => a.isDigit),
            a.isDigit := fun a ha => List.mem_takeWhile_imp ha
        have hdr3 : ∀ a ∈ ((c :: cs).dropWhile
            (fun a => a.isDigit)).head?, a.isDigit = false := by
          intro a ha
          have hh := List.head?_dropWhile_not (fun a => a.isDigit) (c :: cs)
          cases hh2 : ((c :: cs).dropWhile (fun a => a.isDigit)).head? with
          | none => rw [hh2] at ha; cases ha
          | some b => rw [hh2] at hh ha; cases ha; exact hh
        refine ⟨_, _, gnt_integer _ (rest.takeWhile (fun a => a.isWhitespace))
          ((c :: cs).takeWhile (fun a => a.isDigit))
          ((c :: cs).dropWhile (fun a => a.isDigit)) (charInv_mk _ _ _) ?_
          htw hds3 hne3 hdr3⟩
        rw [hdropR, List.append_assoc]
        all_goals congr 1
        all_goals exact hsplit2
      · subst hp
        exact ⟨_, _, gnt_op _ _ cs '+' (charInv_mk _ _ _) hdropR htw
          (Or.inl rfl)⟩
      · subst hm
        exact ⟨_, _, gnt_op _ _ cs '-' (charInv_mk _ _ _) hdropR htw
          (Or.inr rfl)⟩
  simp only [Interpreter.parse, h1, bind, Except.bind, curTok,
    Interpreter.consume, if_pos, h2, h3, h4]

lemma parse_shape_minus (w1 ds1 w2 w3 ds2 rest : List Char)
    (hw1 : ∀ c ∈ w1, c.isWhitespace)
    (hds1 : ∀ c ∈ ds1, c.isDigit) (hne1 : ds1 ≠ [])
    (hw2 : ∀ c ∈ w2, c.isWhitespace)
    (hw3 : ∀ c ∈ w3, c.isWhitespace)
    (hds2 : ∀ c ∈ ds2, c.isDigit) (hne2 : ds2 ≠ [])
    (hrest1 : ∀ c ∈ rest.head?, c.isDigit = false)
    (hrest2 : lexableHead rest) :
    Interpreter.parse
      (Interpreter.init (w1 ++ ds1 ++ w2 ++ '-' :: w3 ++ ds2 ++ rest)) =
      .ok ((digitsVal ds1 : Int) - (digitsVal ds2 : Int)) := by
  set T : List Char := w1 ++ ds1 ++ w2 ++ '-' :: w3 ++ ds2 ++ rest with hT
  have hr1 : ∀ c ∈ (w2 ++ '-' :: (w3 ++ (ds2 ++ rest))).head?,
      c.isDigit = false := by
    cases w2 with
    | nil => intro c hc; simp at hc; subst hc; decide
    | cons a l =>
      intro c hc
      simp at hc
      subst hc
      exact isDigit_eq_false_of_isWhitespace (hw2 a (by simp))
  have hdrop0 : (Interpreter.init T).text.drop (Interpreter.init T).pos =
      w1 ++ ds1 ++ (w2 ++ ('-' :: (w3 ++ (ds2 ++ rest)))) := by
    simp [init_text, init_pos, hT]
  have h1 : Interpreter.get_next_token (Interpreter.init T) =
      .ok ((⟨INTEGER, .vInt (digitsVal ds1 : Int)⟩ : Token),
        ⟨T, w1.length + ds1.length, none,
          T[w1.length + ds1.length]?⟩) := by
    rw [gnt_integer (Interpreter.init T) w1 ds1 _ (init_charInv T) hdrop0
      hw1 hds1 hne1 hr1]
    all_goals simp [init_text, init_pos, init_ct]
  have hdrop2 : T.drop (w1.length + ds1.length) =
      w2 ++ ('-' :: (w3 ++ (ds2 ++ rest))) := by
    have h : T = (w1 ++ ds1) ++ (w2 ++ ('-' :: (w3 ++ (ds2 ++ rest)))) := by
      simp [hT]
    rw [h]
    exact List.drop_left' (by simp)
  have h2 : Interpreter.get_next_token
      ⟨T, w1.length + ds1.length,
        some ⟨INTEGER, .vInt (digitsVal ds1 : Int)⟩,
        T[w1.length + ds1.length]?⟩ =
      .ok ((⟨MINUS, .vStr "-"⟩ : Token),
        ⟨T, w1.length + ds1.length + w2.length + 1,
          some ⟨INTEGER, .vInt (digitsVal ds1 : Int)⟩,
          T[w1.length + ds1.length + w2.length + 1]?⟩) := by
    rw [gnt_op _ w2 (w3 ++ (ds2 ++ rest)) '-' (charInv_mk _ _ _) hdrop2 hw2
      (Or.inr rfl)]
    all_goals simp [hT]
  have hdrop3 : T.drop (w1.length + ds1.length + w2.length + 1) =
      w3 ++ ds2 ++ rest := by
    have h : T = (w1 ++ ds1 ++ w2 ++ ['-']) ++ (w3 ++ ds2 ++ rest) := by
      simp [hT]
    rw [h]
    exact List.drop_left' (by
      simp only [List.length_append, List.length_cons, List.length_nil]
      all_goals omega)
  have h3 : Interpreter.get_next_token
      ⟨T, w1.length + ds1.length + w2.length + 1,
        some ⟨MINUS, .vStr "-"⟩,
        T[w1.length + ds1.length + w2.length + 1]?⟩ =
      .ok ((⟨INTEGER, .vInt (digitsVal ds2 : Int)⟩ : Token),
        ⟨T, w1.length + ds1.length + w2.length + 1 + w3.length + ds2.length,
          some ⟨MINUS, .vStr "-"⟩,
          T[w1.length + ds1.length + w2.length + 1 + w3.length +
            ds2.length]?⟩) := by
    rw [gnt_integer _ w3 ds2 rest (charInv_mk _ _ _) hdrop3 hw3 hds2 hne2
      hrest1]
    all_goals simp [hT]
  have hdrop4 :
      T.drop (w1.length + ds1.length + w2.length + 1 + w3.length +
        ds2.length) = rest := by
    have h : T = (w1 ++ ds1 ++ w2 ++ ['-'] ++ w3 ++ ds2) ++ rest := by
      simp [hT]
    rw [h]
    exact List.drop_left' (by
      simp only [List.length_append, List.length_cons, List.length_nil]
      all_goals omega)
  obtain ⟨t4, s4, h4⟩ : ∃ t4 s4, Interpreter.get_next_token
      ⟨T, w1.length + ds1.length + w2.length + 1 + w3.length + ds2.length,
        some ⟨INTEGER, .vInt (digitsVal ds2 : Int)⟩,
        T[w1.length + ds1.length + w2.length + 1 + w3.length +
          ds2.length]?⟩ = .ok (t4, s4) := by
    have hsplit : rest = rest.takeWhile (fun a => a.isWhitespace) ++
        rest.dropWhile (fun a => a.isWhitespace) :=
      (List.takeWhile_append_dropWhile _ _).symm
    have htw : ∀ c ∈ rest.takeWhile (fun a => a.isWhitespace),
        c.isWhitespace := fun c hc => List.mem_takeWhile_imp hc
    cases hdw : rest.dropWhile (fun a => a.isWhitespace) with
    | nil =>
      refine ⟨_, _, gnt_ws_eof _ rest (charInv_mk _ _ _) hdrop4 ?_⟩
      intro c hc
      rw [hsplit, hdw, List.append_nil] at hc
      exact htw c hc
    | cons c cs =>
      have hcase : c.isDigit = true ∨ c = '+' ∨ c = '-' := by
        have := hrest2 c
        rw [hdw] at this
        exact this rfl
      have hdropR : T.drop (w1.length + ds1.length + w2.length + 1 +
          w3.length + ds2.length) =
          rest.takeWhile (fun a => a.isWhitespace) ++ (c :: cs) := by
        rw [hdrop4]
        conv_lhs => rw [hsplit, hdw]
      rcases hcase with hd | hp | hm
      · have hsplit2 : (c :: cs) = (c :: cs).takeWhile (fun a => a.isDigit)
            ++ (c :: cs).dropWhile (fun a => a.isDigit) :=
          (List.takeWhile_append_dropWhile _ _).symm
        have hne3 : (c :: cs).takeWhile (fun a => a.isDigit) ≠ [] := by
          simp [List.takeWhile_cons, hd]
        have hds3 : ∀ a ∈ (c :: cs).takeWhile (fun a => a.isDigit),
            a.isDigit := fun a ha => List.mem_takeWhile_imp ha
        have hdr3 : ∀ a ∈ ((c :: cs).dropWhile
            (fun a => a.isDigit)).head?, a.isDigit = false := by
          intro a ha
          have hh := List.head?_dropWhile_not (fun a => a.isDigit) (c :: cs)
          cases hh2 : ((c :: cs).dropWhile (fun a => a.isDigit)).head? with
          | none => rw [hh2] at ha; cases ha
          | some b => rw [hh2] at hh ha; cases ha; exact hh
        refine ⟨_, _, gnt_integer _ (rest.takeWhile (fun a => a.isWhitespace))
          ((c :: cs).takeWhile (fun a => a.isDigit))
          ((c :: cs).dropWhile (fun a => a.isDigit)) (charInv_mk _ _ _) ?_
          htw hds3 hne3 hdr3⟩
        rw [hdropR, List.append_assoc]
        all_goals congr 1
        all_goals exact hsplit2
      · subst hp
        exact ⟨_, _, gnt_op _ _ cs '+' (charInv_mk _ _ _) hdropR htw
          (Or.inl rfl)⟩
      · subst hm
        exact ⟨_, _, gnt_op _ _ cs '-' (charInv_mk _ _ _) hdropR htw
          (Or.inr rfl)⟩
  simp only [Interpreter.parse, h1, bind, Except.bind, curTok,
    Interpreter.consume, if_pos, h2, h3, h4,
    if_neg (show ¬ (MINUS = PLUS) from by decide)]




/-- Fuel- and accumulator-general form of `Nat.toDigitsCore`. -/
lemma toDigitsCore_shift : ∀ (n fuel : Nat) (acc : List Char), n < fuel →
    Nat.toDigitsCore 10 fuel n acc =
      Nat.toDigitsCore 10 (n + 1) n [] ++ acc := by
  intro n
  induction n using Nat.strong_induction_on with
  | _ n ih =>
    intro fuel acc hfuel
    obtain ⟨f, rfl⟩ : ∃ f, fuel = f + 1 := ⟨fuel - 1, by omega⟩
    have hunf1 : Nat.toDigitsCore 10 (f + 1) n acc =
        (if n / 10 = 0 then Nat.digitChar (n % 10) :: acc
         else Nat.toDigitsCore 10 f (n / 10)
           (Nat.digitChar (n % 10) :: acc)) := rfl
    have hunf2 : Nat.toDigitsCore 10 (n + 1) n [] =
        (if n / 10 = 0 then [Nat.digitChar (n % 10)]
         else Nat.toDigitsCore 10 n (n / 10)
           [Nat.digitChar (n % 10)]) := rfl
    by_cases h0 : n / 10 = 0
    · rw [hunf1, hunf2]
      simp [h0]
    · rw [hunf1, hunf2]
      simp only [h0, if_false]
      have hn0 : n ≠ 0 := by
        intro h
        subst h
        simp at h0
      have hlt : n / 10 < n := Nat.div_lt_self (by omega) (by decide)
      rw [ih (n / 10) hlt f (Nat.digitChar (n % 10) :: acc) (by omega),
        ih (n / 10) hlt n [Nat.digitChar (n % 10)] (by omega)]
      simp

/-- `Nat.toDigits 10` on a one-digit number. -/
lemma toDigits_lt10 (n : Nat) (h : n < 10) :
    Nat.toDigits 10 n = [Nat.digitChar n] := by
  have hunf : Nat.toDigits 10 n =
      (if n / 10 = 0 then [Nat.digitChar (n % 10)]
       else Nat.toDigitsCore 10 n (n / 10) [Nat.digitChar (n % 10)]) := rfl
  rw [hunf, if_pos (Nat.div_eq_of_lt h), Nat.mod_eq_of_lt h]

/-- `Nat.toDigits 10` peels off the last decimal digit. -/
lemma toDigits_ge10 (n : Nat) (h : 10 ≤ n) :
    Nat.toDigits 10 n =
      Nat.toDigits 10 (n / 10) ++ [Nat.digitChar (n % 10)] := by
  have hunf : Nat.toDigits 10 n =
      (if n / 10 = 0 then [Nat.digitChar (n % 10)]
       else Nat.toDigitsCore 10 n (n / 10) [Nat.digitChar (n % 10)]) := rfl
  have h0 : n / 10 ≠ 0 := by
    have h1 : 1 ≤ n / 10 := (Nat.one_le_div_iff (by norm_num)).mpr h
    omega
  rw [hunf, if_neg h0,
    toDigitsCore_shift (n / 10) n [Nat.digitChar (n % 10)]
      (Nat.div_lt_self (by omega) (by decide))]
  rfl

lemma digitChar_isDigit (m : Nat) (h : m < 10) :
    (Nat.digitChar m).isDigit = true := by
  interval_cases m <;> decide

lemma digitChar_val (m : Nat) (h : m < 10) :
    (Nat.digitChar m).toNat - '0'.toNat = m := by
  interval_cases m <;> decide



/-- Every character `Nat.toDigits 10` produces is a decimal digit. -/
lemma toDigits_all_digit (n : Nat) : ∀ c ∈ Nat.toDigits 10 n, c.isDigit := by
  induction n using Nat.strong_induction_on with
  | _ n ih =>
    by_cases h : n < 10
    · rw [toDigits_lt10 n h]
      intro c hc
      simp at hc
      subst hc
      exact digitChar_isDigit n h
    · rw [toDigits_ge10 n (by omega)]
      intro c hc
      rw [List.mem_append] at hc
      rcases hc with hc | hc
      · exact ih (n / 10) (Nat.div_lt_self (by omega) (by decide)) c hc
      · simp at hc
        subst hc
        exact digitChar_isDigit _ (Nat.mod_lt _ (by decide))

/-- `Nat.toDigits 10` never returns the empty list. -/
lemma toDigits_ne_nil (n : Nat) : Nat.toDigits 10 n ≠ [] := by
  by_cases h : n < 10
  · rw [toDigits_lt10 n h]
    simp
  · rw [toDigits_ge10 n (by omega)]
    simp

/-- Reading back the decimal rendering of `n` with the lexer's decimal fold
recovers `n`. -/
lemma digitsVal_toDigits (n : Nat) : digitsVal (Nat.toDigits 10 n) = n := by
  induction n using Nat.strong_induction_on with
  | _ n ih =>
    by_cases h : n < 10
    · rw [toDigits_lt10 n h]
      show 0 * 10 + ((Nat.digitChar n).toNat - '0'.toNat) = n
      rw [digitChar_val n h]
      omega
    · rw [toDigits_ge10 n (by omega)]
      unfold digitsVal
      rw [List.foldl_append]
      have hih := ih (n / 10) (Nat.div_lt_self (by omega) (by decide))
      unfold digitsVal at hih
      rw [hih]
      show n / 10 * 10 + ((Nat.digitChar (n % 10)).toNat - '0'.toNat) = n
      rw [digitChar_val _ (Nat.mod_lt _ (by decide))]
      have := Nat.div_add_mod n 10
      omega

lemma foldl_eq_ofDigits (ds : List Char) : ∀ (a : Nat),
    ds.foldl (fun acc c => acc * 10 + (c.toNat - '0'.toNat)) a =
      a * 10 ^ ds.length +
        Nat.ofDigits 10 ((ds.map (fun c => c.toNat - '0'.toNat)).reverse) := by
  induction ds with
  | nil => intro a; simp [Nat.ofDigits]
  | cons c ds ih =>
    intro a
    rw [List.foldl_cons, ih]
    have : ((c :: ds).map (fun c => c.toNat - '0'.toNat)).reverse =
        ((ds.map (fun c => c.toNat - '0'.toNat)).reverse) ++
          [c.toNat - '0'.toNat] := by
      simp
    rw [this, Nat.ofDigits_append]
    simp only [List.length_cons, List.length_reverse, List.length_map]
    have h1 : Nat.ofDigits 10 [c.toNat - '0'.toNat] =
        (c.toNat - '0'.toNat : Nat) := by
      simp [Nat.ofDigits]
    rw [h1]
    ring

/-- The lexer's decimal fold agrees with the spec-side `Nat.ofDigits`
reading. -/
lemma digitsVal_eq_specDecimalValue (ds : List Char) :
    digitsVal ds = specDecimalValue ds := by
  unfold digitsVal specDecimalValue
  rw [foldl_eq_ofDigits ds 0]
  simp

/-- C1: for all non-negative integers `a` and `b`, parsing the string formed
of the decimal text of `a`, a space, `'+'`, a space, and the decimal text of
`b` returns `a + b`; with `'-'` in place of `'+'` it returns `a - b`. -/
theorem C1_parse_roundtrip (a b : Nat) :
    parseStr (toString a ++ " + " ++ toString b) =
      .ok ((a : Int) + (b : Int)) ∧
    parseStr (toString a ++ " - " ++ toString b) =
      .ok ((a : Int) - (b : Int)) := by
  constructor
  · have hlist : (toString a ++ " + " ++ toString b).toList =
        [] ++ Nat.toDigits 10 a ++ [' '] ++ '+' :: [' '] ++
          Nat.toDigits 10 b ++ [] := by
      show ((Nat.repr a ++ " + " ++ Nat.repr b) : String).data = _
      simp [String.data_append]
      rfl
    have h := parse_shape_plus [] (Nat.toDigits 10 a) [' '] [' ']
      (Nat.toDigits 10 b) []
      (by simp) (toDigits_all_digit a) (toDigits_ne_nil a)
      (by decide) (by decide)
      (toDigits_all_digit b) (toDigits_ne_nil b)
      (by intro c hc; simp at hc)
      (by intro c hc; simp at hc)
    unfold parseStr
    rw [hlist, h, digitsVal_toDigits, digitsVal_toDigits]
  · have hlist : (toString a ++ " - " ++ toString b).toList =
        [] ++ Nat.toDigits 10 a ++ [' '] ++ '-' :: [' '] ++
          Nat.toDigits 10 b ++ [] := by
      show ((Nat.repr a ++ " - " ++ Nat.repr b) : String).data = _
      simp [String.data_append]
      rfl
    have h := parse_shape_minus [] (Nat.toDigits 10 a) [' '] [' ']
      (Nat.toDigits 10 b) []
      (by simp) (toDigits_all_digit a) (toDigits_ne_nil a)
      (by decide) (by decide)
      (toDigits_all_digit b) (toDigits_ne_nil b)
      (by intro c hc; simp at hc)
      (by intro c hc; simp at hc)
    unfold parseStr
    rw [hlist, h, digitsVal_toDigits, digitsVal_toDigits]


/-- C2: when the remaining input at the cursor starts with a maximal
non-empty digit run `ds` (the next character, if any, is not a digit), the
lexer produces a single `INTEGER` token whose value is `ds` read as an
ordinary decimal numeral, and the cursor moves past the whole run. -/
theorem C2_integer_token (s : Interpreter) (ds rest : List Char)
    (hinv : CharInv s)
    (hdrop : s.text.drop s.pos = ds ++ rest)
    (hds : ∀ c ∈ ds, c.isDigit) (hne : ds ≠ [])
    (hrest : ∀ c ∈ rest.head?, c.isDigit = false) :
    s.get_next_token = .ok
      ((⟨INTEGER, .vInt (specDecimalValue ds : Int)⟩ : Token),
        ⟨s.text, s.pos + ds.length, s.current_token,
          s.text[s.pos + ds.length]?⟩) := by
  have h := gnt_integer s [] ds rest hinv (by simpa using hdrop)
    (by simp) hds hne hrest
  rw [digitsVal_eq_specDecimalValue] at h
  simpa using h

/-- Witness for C2 at the input `"12+"`. -/
theorem C2_integer_token_witness :
    (CharInv (Interpreter.init ['1', '2', '+']) ∧
      (Interpreter.init ['1', '2', '+']).text.drop
        (Interpreter.init ['1', '2', '+']).pos = ['1', '2'] ++ ['+'] ∧
      (∀ c ∈ (['1', '2'] : List Char), c.isDigit) ∧
      (∀ c ∈ (['+'] : List Char).head?, c.isDigit = false)) ∧
    (Interpreter.init ['1', '2', '+']).get_next_token = .ok
      ((⟨INTEGER, .vInt (specDecimalValue ['1', '2'] : Int)⟩ : Token),
        ⟨['1', '2', '+'], 2, none, some '+'⟩) :=
  ⟨⟨by decide, by decide, by decide, by decide⟩,
    C2_integer_token (Interpreter.init ['1', '2', '+']) ['1', '2'] ['+']
      (by decide) (by decide) (by decide) (by decide) (by decide)⟩

/-- C3: when the first character of consequence at the cursor (after a
whitespace run `ws`) is neither a digit, nor `'+'`, nor `'-'`, nor
whitespace, the lexer fails with a `ParserError` naming that character's
position; it neither skips the character nor produces a token. -/
theorem C3_invalid_token (s : Interpreter) (ws rest : List Char) (c : Char)
    (hinv : CharInv s) (hdrop : s.text.drop s.pos = ws ++ c :: rest)
    (hws : ∀ a ∈ ws, a.isWhitespace)
    (hnd : c.isDigit = false) (hnp : c ≠ '+') (hnm : c ≠ '-')
    (hnw : c.isWhitespace = false) :
    s.get_next_token = .error (.parserError
      ("Invalid token at position " ++ toString (s.pos + ws.length))) :=
  gnt_invalid s ws rest c hinv hdrop hws hnd hnp hnm hnw

/-- Witness for C3 at the input `"a"`. -/
theorem C3_invalid_token_witness :
    (CharInv (Interpreter.init ['a']) ∧
      (Interpreter.init ['a']).text.drop (Interpreter.init ['a']).pos =
        [] ++ 'a' :: [] ∧
      ('a').isDigit = false ∧ ('a').isWhitespace = false) ∧
    (Interpreter.init ['a']).get_next_token =
      .error (.parserError "Invalid token at position 0") :=
  ⟨⟨by decide, by decide, by decide, by decide⟩,
    C3_invalid_token (Interpreter.init ['a']) [] [] 'a' (by decide)
      (by decide) (by decide) (by decide) (by decide) (by decide)
      (by decide)⟩

/-- C4 counterexample: a state (reachable by `parse` on `"1a"`) whose
current token is an `INTEGER`, where consuming with the matching
expectation `INTEGER` nevertheless fails, because fetching the next token
hits an invalid character; so success is not equivalent to the kinds
matching. -/
theorem C4_counterexample :
    (⟨['1', 'a'], 1, some ⟨INTEGER, .vInt 1⟩, some 'a'⟩ :
        Interpreter).current_token = some ⟨INTEGER, .vInt 1⟩ ∧
    (⟨INTEGER, .vInt 1⟩ : Token).kind = INTEGER ∧
    Interpreter.consume
      ⟨['1', 'a'], 1, some ⟨INTEGER, .vInt 1⟩, some 'a'⟩ INTEGER =
      .error (.parserError "Invalid token at position 1") := by
  refine ⟨rfl, rfl, ?_⟩
  decide

/-- C4 amended: consuming with expected kind succeeds (and the lookahead
becomes the next lexer token) exactly when the current token kind equals
the expectation AND the lexer yields a next token without error; when the
kinds differ it fails with a `ParserError` naming the expected kind, the
cursor position, and the kind found. -/
theorem C4_consume_amended (s : Interpreter) (tok : Token) (k : String)
    (hct : s.current_token = some tok) :
    ((∃ s', s.consume k = .ok s') ↔
      (tok.kind = k ∧ ∃ t s'', s.get_next_token = .ok (t, s''))) ∧
    (∀ t s'', tok.kind = k → s.get_next_token = .ok (t, s'') →
      s.consume k = .ok {s'' with current_token := some t}) ∧
    (tok.kind ≠ k →
      s.consume k = .error (.parserError ("Expected " ++ k ++
        " at position " ++ toString s.pos ++ ", found " ++ tok.kind))) := by
  have hbody : s.consume k =
      (if tok.kind = k then
        match s.get_next_token with
        | .ok (t, s') => .ok { s' with current_token := some t }
        | .error e => .error e
      else .error (.parserError ("Expected " ++ k ++ " at position " ++
        toString s.pos ++ ", found " ++ tok.kind))) := by
    unfold Interpreter.consume
    rw [hct]
  refine ⟨?_, ?_, ?_⟩
  · constructor
    · rintro ⟨s', hs'⟩
      rw [hbody] at hs'
      by_cases hk : tok.kind = k
      · rw [if_pos hk] at hs'
        cases hg : s.get_next_token with
        | ok p =>
          obtain ⟨t, s2⟩ := p
          exact ⟨hk, t, s2, rfl⟩
        | error e =>
          rw [hg] at hs'
          exact Except.noConfusion hs'
      · rw [if_neg hk] at hs'
        exact Except.noConfusion hs'
    · rintro ⟨hk, t, s'', hg⟩
      rw [hbody, if_pos hk, hg]
      exact ⟨_, rfl⟩
  · intro t s'' hk hg
    rw [hbody, if_pos hk, hg]
  · intro hk
    rw [hbody, if_neg hk]

/-- Witness for the amended C4 at the state the repository test constructs
(`Interpreter('')` with its token set to `INTEGER 0`). -/
theorem C4_consume_amended_witness :
    ((⟨[], 0, some ⟨INTEGER, .vInt 0⟩, none⟩ :
        Interpreter).current_token = some ⟨INTEGER, .vInt 0⟩) ∧
    (((∃ s', Interpreter.consume
        ⟨[], 0, some ⟨INTEGER, .vInt 0⟩, none⟩ PLUS = .ok s') ↔
      ((⟨INTEGER, .vInt 0⟩ : Token).kind = PLUS ∧
        ∃ t s'', Interpreter.get_next_token
          ⟨[], 0, some ⟨INTEGER, .vInt 0⟩, none⟩ = .ok (t, s''))) ∧
    (∀ t s'', (⟨INTEGER, .vInt 0⟩ : Token).kind = PLUS →
      Interpreter.get_next_token ⟨[], 0, some ⟨INTEGER, .vInt 0⟩, none⟩ =
        .ok (t, s'') →
      Interpreter.consume ⟨[], 0, some ⟨INTEGER, .vInt 0⟩, none⟩ PLUS =
        .ok {s'' with current_token := some t}) ∧
    ((⟨INTEGER, .vInt 0⟩ : Token).kind ≠ PLUS →
      Interpreter.consume ⟨[], 0, some ⟨INTEGER, .vInt 0⟩, none⟩ PLUS =
        .error (.parserError ("Expected " ++ PLUS ++ " at position " ++
          toString (0 : Nat) ++ ", found " ++
          (⟨INTEGER, .vInt 0⟩ : Token).kind)))) :=
  ⟨rfl, C4_consume_amended ⟨[], 0, some ⟨INTEGER, .vInt 0⟩, none⟩
    ⟨INTEGER, .vInt 0⟩ PLUS rfl⟩

/-- C5: once the cursor is at or past the end of the input, any number of
successive token requests all yield `EOF` tokens carrying no value, without
error and without changing the state (in particular the cursor never
moves). -/
theorem C5_eof_idempotent (s : Interpreter) (hinv : CharInv s)
    (hpos : s.text.length ≤ s.pos) (n : Nat) :
    requestTokens n s = .ok (List.replicate n ⟨EOF, .vNone⟩, s) := by
  induction n with
  | zero => rfl
  | succ m ih =>
    have hunf : requestTokens (m + 1) s =
        match s.get_next_token with
        | .ok (t, s') =>
          match requestTokens m s' with
          | .ok (ts, s'') => .ok (t :: ts, s'')
          | .error e => .error e
        | .error e => .error e := rfl
    rw [hunf, gnt_eof s hinv hpos]
    simp only [ih]
    simp [List.replicate_succ]

/-- Witness for C5: three successive requests at the end of `""`. -/
theorem C5_eof_idempotent_witness :
    (CharInv (Interpreter.init []) ∧
      (Interpreter.init []).text.length ≤ (Interpreter.init []).pos) ∧
    requestTokens 3 (Interpreter.init []) =
      .ok (List.replicate 3 ⟨EOF, .vNone⟩, Interpreter.init []) :=
  ⟨⟨by decide, by decide⟩,
    C5_eof_idempotent (Interpreter.init []) (by decide) (by decide) 3⟩



/-- C6 counterexample: the token stream of `"1+2 a"` begins
`INTEGER 1`, `PLUS`, `INTEGER 2`, yet `parse` raises a `ParserError`
instead of returning `3`: consuming the right operand fetches one more
token, which fails on the trailing `'a'`.  Trailing input is therefore
inspected. -/
theorem C6_counterexample :
    parseStr "1+2 a" = .error (.parserError "Invalid token at position 4") := by
  decide

/-- C6 amended: with a token stream beginning `INTEGER (PLUS|MINUS) INTEGER`,
`parse` returns the computed result provided one further token can be lexed
from the trailing input (it is empty, all whitespace, or its first
non-whitespace character is a digit, `'+'` or `'-'`); that one token is
fetched and ignored, and everything beyond it is not inspected. -/
theorem C6_trailing_tolerated (ds1 ds2 rest : List Char) (opc : Char)
    (hds1 : ∀ c ∈ ds1, c.isDigit) (hne1 : ds1 ≠ [])
    (hopc : opc = '+' ∨ opc = '-')
    (hds2 : ∀ c ∈ ds2, c.isDigit) (hne2 : ds2 ≠ [])
    (hrest1 : ∀ c ∈ rest.head?, c.isDigit = false)
    (hrest2 : lexableHead rest) :
    Interpreter.parse (Interpreter.init (ds1 ++ opc :: ds2 ++ rest)) =
      .ok (if opc = '+' then (digitsVal ds1 : Int) + (digitsVal ds2 : Int)
           else (digitsVal ds1 : Int) - (digitsVal ds2 : Int)) := by
  rcases hopc with rfl | rfl
  · have h := parse_shape_plus [] ds1 [] [] ds2 rest (by simp) hds1 hne1
      (by simp) (by simp) hds2 hne2 hrest1 hrest2
    simpa using h
  · have h := parse_shape_minus [] ds1 [] [] ds2 rest (by simp) hds1 hne1
      (by simp) (by simp) hds2 hne2 hrest1 hrest2
    simpa using h

/-- Witness for the amended C6: `"1+2 +"` parses to `3`, ignoring the
trailing lexable garbage `" +"`. -/
theorem C6_trailing_tolerated_witness :
    ((∀ c ∈ (['1'] : List Char), c.isDigit) ∧
      (∀ c ∈ ([' ', '+'] : List Char).head?, c.isDigit = false) ∧
      lexableHead [' ', '+']) ∧
    Interpreter.parse
      (Interpreter.init (['1'] ++ '+' :: ['2'] ++ [' ', '+'])) =
      .ok (3 : Int) :=
  ⟨⟨by decide, by decide, by decide⟩, by
    have h := C6_trailing_tolerated ['1'] ['2'] [' ', '+'] '+'
      (by decide) (by decide) (Or.inl rfl) (by decide) (by decide)
      (by decide) (by decide)
    simpa using h⟩

/-- C7: the freshly initialized state satisfies the lookahead invariant
(`current_char = text[pos]` in bounds, `none` past the end), and each
internal stepping operation — `advance`, whitespace skipping, the integer
scan, and next-token production — preserves the invariant and never moves
the cursor backwards. -/
theorem C7_state_invariant (t : List Char) (s : Interpreter)
    (h : CharInv s) :
    CharInv (Interpreter.init t) ∧
    CharInv s.advance ∧ s.pos ≤ s.advance.pos ∧
    CharInv s.skip_whitespace ∧ s.pos ≤ s.skip_whitespace.pos ∧
    stepOk s s.integer ∧ stepOk s s.get_next_token :=
  ⟨init_charInv t, advance_charInv s, by rw [advance_pos]; omega,
    skipWsAux_charInv _ s h, skipWsAux_pos_le _ s,
    integer_stepOk s h, gnt_stepOk s h⟩

/-- Witness for C7 at the state `Interpreter("1")`. -/
theorem C7_state_invariant_witness :
    CharInv (Interpreter.init ['1']) ∧
    (CharInv (Interpreter.init ['x']) ∧
      CharInv (Interpreter.init ['1']).advance ∧
      (Interpreter.init ['1']).pos ≤
        (Interpreter.init ['1']).advance.pos ∧
      CharInv (Interpreter.init ['1']).skip_whitespace ∧
      (Interpreter.init ['1']).pos ≤
        (Interpreter.init ['1']).skip_whitespace.pos ∧
      stepOk (Interpreter.init ['1'])
        (Interpreter.init ['1']).integer ∧
      stepOk (Interpreter.init ['1'])
        (Interpreter.init ['1']).get_next_token) :=
  ⟨by decide, C7_state_invariant ['x'] (Interpreter.init ['1'])
    (by decide)⟩

/-- C8: whitespace before, between, or after the tokens does not change the
result: an expression with arbitrary whitespace runs parses to the same
value as the same expression with no whitespace at all. -/
theorem C8_whitespace_insensitive (w1 ds1 w2 w3 ds2 w4 : List Char)
    (opc : Char)
    (hw1 : ∀ c ∈ w1, c.isWhitespace)
    (hds1 : ∀ c ∈ ds1, c.isDigit) (hne1 : ds1 ≠ [])
    (hw2 : ∀ c ∈ w2, c.isWhitespace)
    (hopc : opc = '+' ∨ opc = '-')
    (hw3 : ∀ c ∈ w3, c.isWhitespace)
    (hds2 : ∀ c ∈ ds2, c.isDigit) (hne2 : ds2 ≠ [])
    (hw4 : ∀ c ∈ w4, c.isWhitespace) :
    Interpreter.parse
        (Interpreter.init (w1 ++ ds1 ++ w2 ++ opc :: w3 ++ ds2 ++ w4)) =
      Interpreter.parse (Interpreter.init (ds1 ++ opc :: ds2)) ∧
    Interpreter.parse
        (Interpreter.init (w1 ++ ds1 ++ w2 ++ opc :: w3 ++ ds2 ++ w4)) =
      .ok (if opc = '+' then (digitsVal ds1 : Int) + (digitsVal ds2 : Int)
           else (digitsVal ds1 : Int) - (digitsVal ds2 : Int)) := by
  have hr1 : ∀ c ∈ w4.head?, c.isDigit = false := by
    intro c hc
    cases w4 with
    | nil => simp at hc
    | cons a l =>
      simp at hc
      subst hc
      exact isDigit_eq_false_of_isWhitespace (hw4 a (by simp))
  have hr2 : lexableHead w4 := by
    intro c hc
    have hdw : w4.dropWhile (fun a => a.isWhitespace) = [] :=
      List.dropWhile_eq_nil_iff.mpr (fun x hx => hw4 x hx)
    rw [hdw] at hc
    simp at hc
  have hempty1 : ∀ c ∈ ([] : List Char), c.isWhitespace := by simp
  have hr1e : ∀ c ∈ ([] : List Char).head?, c.isDigit = false := by
    intro c hc
    simp at hc
  have hr2e : lexableHead [] := by
    intro c hc
    simp [List.dropWhile] at hc
  rcases hopc with rfl | rfl
  · have ha := parse_shape_plus w1 ds1 w2 w3 ds2 w4 hw1 hds1 hne1 hw2 hw3
      hds2 hne2 hr1 hr2
    have hb := parse_shape_plus [] ds1 [] [] ds2 [] hempty1 hds1 hne1
      hempty1 hempty1 hds2 hne2 hr1e hr2e
    constructor
    · rw [ha]
      have hb2 := hb
      simp only [List.nil_append, List.append_nil, List.append_assoc,
        List.singleton_append] at hb2
      rw [hb2]
    · simpa using ha
  · have ha := parse_shape_minus w1 ds1 w2 w3 ds2 w4 hw1 hds1 hne1 hw2 hw3
      hds2 hne2 hr1 hr2
    have hb := parse_shape_minus [] ds1 [] [] ds2 [] hempty1 hds1 hne1
      hempty1 hempty1 hds2 hne2 hr1e hr2e
    constructor
    · rw [ha]
      have hb2 := hb
      simp only [List.nil_append, List.append_nil, List.append_assoc,
        List.singleton_append] at hb2
      rw [hb2]
    · simpa using ha

/-- Witness for C8: `"4 + 3"` and `"4+3"` both return `7`. -/
theorem C8_whitespace_insensitive_witness :
    Interpreter.parse
        (Interpreter.init ([] ++ ['4'] ++ [' '] ++ '+' :: [' '] ++
          ['3'] ++ [])) =
      Interpreter.parse (Interpreter.init (['4'] ++ '+' :: ['3'])) ∧
    Interpreter.parse
        (Interpreter.init ([] ++ ['4'] ++ [' '] ++ '+' :: [' '] ++
          ['3'] ++ [])) = .ok (7 : Int) :=
  C8_whitespace_insensitive [] ['4'] [' '] [' '] ['3'] [] '+'
    (by decide) (by decide) (by decide) (by decide) (Or.inl rfl)
    (by decide) (by decide) (by decide) (by decide)


/-- C9: on input that is empty or all whitespace, the first token is `EOF`
where an `INTEGER` left operand is required, so `parse` raises a
`ParserError` (and returns no integer result). -/
theorem C9_blank_input_error (t : List Char)
    (hws : ∀ c ∈ t, c.isWhitespace) :
    Interpreter.parse (Interpreter.init t) = .error (.parserError
      ("Expected " ++ INTEGER ++ " at position " ++ toString t.length ++
        ", found " ++ EOF)) := by
  have h1 : Interpreter.get_next_token (Interpreter.init t) =
      .ok ((⟨EOF, .vNone⟩ : Token), ⟨t, t.length, none, none⟩) := by
    have h := gnt_ws_eof (Interpreter.init t) t (init_charInv t)
      (by simp [init_text, init_pos]) hws
    simpa [init_text, init_pos, init_ct] using h
  simp only [Interpreter.parse, h1, bind, Except.bind, curTok,
    Interpreter.consume,
    if_neg (show ¬ (EOF = INTEGER) from by decide)]

/-- Witness for C9 at the all-whitespace input `" "`. -/
theorem C9_blank_input_error_witness :
    (∀ c ∈ ([' '] : List Char), c.isWhitespace) ∧
    Interpreter.parse (Interpreter.init [' ']) = .error (.parserError
      "Expected INTEGER at position 1, found EOF") :=
  ⟨by decide, by
    have h := C9_blank_input_error [' '] (by decide)
    simpa using h⟩

/-- C10: when the first token is an `INTEGER` and the second token (the one
the parser fetches while consuming the left operand) is neither `PLUS` nor
`MINUS`, `parse` fails through the `MINUS` expectation: the error names
`MINUS` as expected and reports the kind actually found. -/
theorem C10_non_op_error (t : List Char) (tok1 tok2 : Token)
    (s1 s2 : Interpreter)
    (h1 : (Interpreter.init t).get_next_token = .ok (tok1, s1))
    (hk1 : tok1.kind = INTEGER)
    (h2 : Interpreter.get_next_token {s1 with current_token := some tok1} =
      .ok (tok2, s2))
    (hk2 : tok2.kind ≠ PLUS) (hk3 : tok2.kind ≠ MINUS) :
    Interpreter.parse (Interpreter.init t) = .error (.parserError
      ("Expected " ++ MINUS ++ " at position " ++ toString s2.pos ++
        ", found " ++ tok2.kind)) := by
  simp only [Interpreter.parse, h1, bind, Except.bind, curTok,
    Interpreter.consume, hk1, if_pos, h2, if_neg hk2, if_neg hk3]

/-- Witness for C10 at the input `"1 2"` (second token `INTEGER`). -/
theorem C10_non_op_error_witness :
    ((Interpreter.init ['1', ' ', '2']).get_next_token = .ok
      ((⟨INTEGER, .vInt 1⟩ : Token),
        ⟨['1', ' ', '2'], 1, none, some ' '⟩) ∧
      (⟨INTEGER, .vInt 1⟩ : Token).kind = INTEGER ∧
      (⟨INTEGER, .vInt 2⟩ : Token).kind ≠ PLUS ∧
      (⟨INTEGER, .vInt 2⟩ : Token).kind ≠ MINUS) ∧
    Interpreter.parse (Interpreter.init ['1', ' ', '2']) =
      .error (.parserError "Expected MINUS at position 3, found INTEGER") :=
  ⟨⟨by decide, by decide, by decide, by decide⟩, by
    have h := C10_non_op_error ['1', ' ', '2'] ⟨INTEGER, .vInt 1⟩
      ⟨INTEGER, .vInt 2⟩ ⟨['1', ' ', '2'], 1, none, some ' '⟩
      ⟨['1', ' ', '2'], 3, some ⟨INTEGER, .vInt 1⟩, none⟩
      (by decide) (by decide) (by decide) (by decide) (by decide)
    simpa using h⟩

end Calc
